import Mathlib

/-!
Shallow embedding of the raster-processing core of the File-manipulator
repository: the dither/tone engine (`src/js/effects/DitherEffect.js`), the
halftone screening engine (`src/js/effects/HalftoneEffect.js`) and the
parallel-path eligibility decision of the hybrid dispatcher
(`src/js/imageProcessor.js`).

Modelling conventions:
- JS numbers are embedded as exact rationals (`ℚ`); machine floating point
  is not modelled.
- The flat RGBA `Uint8ClampedArray` of the source (stride 4, index
  `i = (y*w + x)*4`) is embedded as a `List Px` of pixel records; a source
  index `i` corresponds to pixel index `i / 4`, and the source bound check
  `idx >= data.length` corresponds to the pixel-level bound check.
- A store into a `Uint8ClampedArray` slot applies the ECMAScript
  `ToUint8Clamp` conversion (clamp to `[0,255]`, round half to even),
  embedded as `toUint8Clamp`.
- `Math.round x` is `⌊x + 1/2⌋` (`jsRound`), `Math.floor` is `Int.floor`.
- Transcendental calls (`Math.sin`, `Math.cos`) are passed in as function
  parameters `sq cq : ℚ → ℚ`, since their float values are opaque to the
  claims under study.
-/

namespace FileManipulator

/-- One RGB color triple, as produced by `mapColor` / `hexToRgb`
(source arrays `[c[0], c[1], c[2]]`). -/
structure Col where
  c0 : ℚ
  c1 : ℚ
  c2 : ℚ
  deriving DecidableEq, Repr

/-- One RGBA pixel of the raster (`data[i..i+3]` in the flat source array). -/
structure Px where
  r : ℚ
  g : ℚ
  b : ℚ
  a : ℚ
  deriving DecidableEq, Repr

instance : Inhabited Px := ⟨⟨0, 0, 0, 0⟩⟩

/-- Tonal palette parsed once per render from the hex color parameters
(`palTonal` in `DitherEffect.process`). -/
structure Palette where
  shadow : Col
  mid : Col
  high : Col
  deriving DecidableEq, Repr

/-- Algorithm selector of the dither engine (`params.algorithm`). -/
inductive Algo where
  | none
  | floyd
  | atkinson
  | sierra
  | bayer4
  | bayer8
  | modulation
  | stitched
  deriving DecidableEq, Repr

/-- Render mode selector (`params.renderMode`). -/
inductive RenderMode where
  | tonal
  | grade
  deriving DecidableEq, Repr

/-- Color space selector for grade mode (`params.colorSpace`). -/
inductive ColorSpace where
  | indexed
  | rgb
  deriving DecidableEq, Repr

/-- Parameter record of the dither effect (`DitherEffect.params`).  The three
hex color strings are carried as an already-parsed `Palette` at the call
sites, mirroring the `hexToRgb` parse in `process`.  The declared-but-inert
`bleeding`/`roundness`/`resampling` parameters are omitted: no transform
path reads them. -/
structure DitherParams where
  enabled : Bool
  resolution : ℚ
  algorithm : Algo
  renderMode : RenderMode
  colorSpace : ColorSpace
  indexedCount : ℕ
  contrast : ℚ
  spread : ℚ
  knockout : Bool
  deriving DecidableEq, Repr

/-- Source `clamp`: `v => v < 0 ? 0 : (v > 255 ? 255 : v)`. -/
def clamp (v : ℚ) : ℚ :=
  if v < 0 then 0 else if v > 255 then 255 else v

/-- JS `Math.round`: round half towards positive infinity. -/
def jsRound (q : ℚ) : ℤ := ⌊q + 1 / 2⌋

/-- ECMAScript `ToUint8Clamp`: clamp to `[0, 255]` and round, ties to even;
applied on every store into the raster byte array. -/
def toUint8Clamp (x : ℚ) : ℤ :=
  if x ≤ 0 then 0
  else if 255 ≤ x then 255
  else
    let f := ⌊x⌋
    if x - f < 1 / 2 then f
    else if 1 / 2 < x - f then f + 1
    else if f % 2 = 0 then f else f + 1

/-- Value actually held by a raster slot after a store of `x`. -/
def storeByte (x : ℚ) : ℚ := ((toUint8Clamp x : ℤ) : ℚ)

/-- Source `factor`: contrast curve `clamp(f*(v-128)+128)`. -/
def factor (v f : ℚ) : ℚ := clamp (f * (v - 128) + 128)

/-- Contrast factor `(259*(contrast+255)) / (255*(259-contrast))` computed
once per render in `DitherEffect.process`. -/
def contrastFactor (contrast : ℚ) : ℚ :=
  (259 * (contrast + 255)) / (255 * (259 - contrast))

/-- Integer cube root: the exact value of `Math.floor(Math.pow(n, 1/3))`
under real arithmetic, i.e. the largest `k` with `k^3 ≤ n`. -/
def icbrt (n : ℕ) : ℕ :=
  ((List.range (n + 1)).filter (fun k => k * k * k ≤ n)).foldl max 0

/-- Source `lerpColor`: componentwise `c1 + (c2 - c1) * t`. -/
def lerpColor (x y : Col) (t : ℚ) : Col :=
  ⟨x.c0 + (y.c0 - x.c0) * t, x.c1 + (y.c1 - x.c1) * t, x.c2 + (y.c2 - x.c2) * t⟩

/-- Source `mapColor(r, g, b, params, contrastF, pal)`: contrast (grade mode
only), then the tonal three-stop gradient map or the grade quantizer. -/
def mapColor (r g b : ℚ) (p : DitherParams) (contrastF : ℚ) (pal : Palette) : Col :=
  let r := if p.renderMode = RenderMode.grade ∧ contrastF ≠ 0 then factor r contrastF else r
  let g := if p.renderMode = RenderMode.grade ∧ contrastF ≠ 0 then factor g contrastF else g
  let b := if p.renderMode = RenderMode.grade ∧ contrastF ≠ 0 then factor b contrastF else b
  match p.renderMode with
  | RenderMode.tonal =>
      let luma := 0.299 * r + 0.587 * g + 0.114 * b
      let luma := if luma < 0 then 0 else luma
      let luma := if luma > 255 then 255 else luma
      if luma < 128 then
        lerpColor pal.shadow pal.mid (luma / 128)
      else
        lerpColor pal.mid pal.high ((luma - 128) / 127)
  | RenderMode.grade =>
      match p.colorSpace with
      | ColorSpace.indexed =>
          let levels := icbrt p.indexedCount
          let levels := if levels < 2 then 2 else levels
          let step : ℚ := 255 / ((levels : ℚ) - 1)
          ⟨(jsRound (r / step) : ℚ) * step,
           (jsRound (g / step) : ℚ) * step,
           (jsRound (b / step) : ℚ) * step⟩
      | ColorSpace.rgb =>
          let step : ℚ := 8
          ⟨(jsRound (r / step) : ℚ) * step,
           (jsRound (g / step) : ℚ) * step,
           (jsRound (b / step) : ℚ) * step⟩

/-- Source `isShadow`: strict per-channel equality with the shadow color. -/
def isShadow (c : Col) (pal : Palette) : Prop :=
  c.c0 = pal.shadow.c0 ∧ c.c1 = pal.shadow.c1 ∧ c.c2 = pal.shadow.c2

instance (c : Col) (pal : Palette) : Decidable (isShadow c pal) := by
  unfold isShadow; infer_instance

/-- Per-pixel body of the `processSimple` loop: map the color, store the
three channels, knock out alpha when requested and the mapped color is
exactly the shadow color. -/
def simplePixel (p : DitherParams) (cF : ℚ) (pal : Palette) (px : Px) : Px :=
  let c := mapColor px.r px.g px.b p cF pal
  { r := storeByte c.c0
    g := storeByte c.c1
    b := storeByte c.c2
    a := if p.knockout ∧ isShadow c pal then 0 else px.a }

/-- Source `processSimple`: the `i += 4` loop visits every pixel once and
rewrites it from its own channels only. -/
def processSimple (p : DitherParams) (cF : ℚ) (pal : Palette) (data : List Px) : List Px :=
  data.map (simplePixel p cF pal)

/-- Bayer 4x4 threshold matrix (`map4`). -/
def bayerMap4 : List (List ℕ) :=
  [[0, 8, 2, 10], [12, 4, 14, 6], [3, 11, 1, 9], [15, 7, 13, 5]]

/-- Bayer 8x8 threshold matrix (`map8`). -/
def bayerMap8 : List (List ℕ) :=
  [[0, 48, 12, 60, 3, 51, 15, 63],
   [32, 16, 44, 28, 35, 19, 47, 31],
   [8, 56, 4, 52, 11, 59, 7, 55],
   [40, 24, 36, 20, 43, 27, 39, 23],
   [2, 50, 14, 62, 1, 49, 13, 61],
   [34, 18, 46, 30, 33, 17, 45, 29],
   [10, 58, 6, 54, 9, 57, 5, 53],
   [42, 26, 38, 22, 41, 25, 37, 21]]

/-- Stitched (woven lattice) matrix (`mapStitch`). -/
def stitchMap : List (List ℕ) :=
  [[4, 0, 4, 0], [0, 4, 0, 4], [4, 0, 4, 0], [0, 4, 0, 4]]

/-- Positional threshold bias of `processPattern` at pixel `(x, y)`;
`sq`/`cq` stand for `Math.sin`/`Math.cos`.  The source reads
`params.spread || 1.0`, so a zero spread falls back to `1`. -/
def patternBias (p : DitherParams) (sq cq : ℚ → ℚ) (x y : ℕ) : ℚ :=
  let spread := if p.spread = 0 then 1 else p.spread
  match p.algorithm with
  | Algo.modulation => (sq ((x : ℚ) * 0.5) * cq ((y : ℚ) * 0.5)) * 32 * spread
  | Algo.stitched =>
      (((stitchMap.getD (y % 4) []).getD (x % 4) 0 : ℚ) - 2) * 10 * spread
  | Algo.bayer4 =>
      ((((bayerMap4.getD (y % 4) []).getD (x % 4) 0 : ℚ) / 16) - 0.5) * 64 * spread
  | Algo.bayer8 =>
      ((((bayerMap8.getD (y % 8) []).getD (x % 8) 0 : ℚ) / 64) - 0.5) * 64 * spread
  | _ => 0

/-- Per-pixel body of the `processPattern` loop: add the positional bias to
every channel, map, store, knock out. -/
def patternPixel (p : DitherParams) (cF : ℚ) (pal : Palette) (sq cq : ℚ → ℚ)
    (x y : ℕ) (px : Px) : Px :=
  let bias := patternBias p sq cq x y
  let c := mapColor (px.r + bias) (px.g + bias) (px.b + bias) p cF pal
  { r := storeByte c.c0
    g := storeByte c.c1
    b := storeByte c.c2
    a := if p.knockout ∧ isShadow c pal then 0 else px.a }

/-- One iteration of the inner `processPattern` loop: rewrite pixel
`i = y*w + x` in place. -/
def patternStep (p : DitherParams) (cF : ℚ) (pal : Palette) (sq cq : ℚ → ℚ)
    (w : ℕ) (data : List Px) (x y : ℕ) : List Px :=
  data.set (y * w + x) (patternPixel p cF pal sq cq x y (data.getD (y * w + x) default))

/-- Source `processPattern`: nested `y`/`x` loops over the `w × h` raster. -/
def processPattern (p : DitherParams) (cF : ℚ) (pal : Palette) (sq cq : ℚ → ℚ)
    (w h : ℕ) (data : List Px) : List Px :=
  (List.range h).foldl
    (fun d y => (List.range w).foldl (fun d x => patternStep p cF pal sq cq w d x y) d)
    data

/-- One error-diffusion kernel tap `{x, y, f}`. -/
structure Tap where
  x : ℤ
  y : ℤ
  f : ℚ
  deriving DecidableEq, Repr

/-- Floyd-Steinberg kernel as listed in `applyEffectLoop`. -/
def floydKernel : List Tap :=
  [⟨1, 0, 7 / 16⟩, ⟨-1, 1, 3 / 16⟩, ⟨0, 1, 5 / 16⟩, ⟨1, 1, 1 / 16⟩]

/-- Atkinson kernel as listed in `applyEffectLoop`. -/
def atkinsonKernel : List Tap :=
  [⟨1, 0, 1 / 8⟩, ⟨2, 0, 1 / 8⟩, ⟨-1, 1, 1 / 8⟩, ⟨0, 1, 1 / 8⟩, ⟨1, 1, 1 / 8⟩, ⟨0, 2, 1 / 8⟩]

/-- Sierra-Lite kernel as listed in `applyEffectLoop`. -/
def sierraKernel : List Tap :=
  [⟨1, 0, 2 / 4⟩, ⟨-1, 1, 1 / 4⟩, ⟨0, 1, 1 / 4⟩]

/-- Source `distribute(data, x, y, er, eg, eb, f, w)`: add the weighted
residual to pixel `(x, y)` unless the column is outside `[0, w)` or the flat
index is outside the array (a JS typed-array store at a negative index is a
no-op on the buffer, matching the `idx < 0` guard).  The source index
`(y*w+x)*4` and bound `data.length` are both divided by 4 here, since `data`
is a pixel list. -/
def distribute (data : List Px) (x y : ℤ) (er eg eb f : ℚ) (w : ℤ) : List Px :=
  if x < 0 ∨ w ≤ x then data
  else
    let idx := y * w + x
    if idx < 0 ∨ (data.length : ℤ) ≤ idx then data
    else
      let px := data.getD idx.toNat default
      data.set idx.toNat
        { px with
          r := storeByte (clamp (px.r + er * f))
          g := storeByte (clamp (px.g + eg * f))
          b := storeByte (clamp (px.b + eb * f)) }

/-- Per-pixel body of the `processErrDiff` loop: quantize pixel `(x, y)`,
store it (with knockout), then distribute the per-channel residual
`original − quantized` to every kernel tap. -/
def errDiffStep (p : DitherParams) (cF : ℚ) (pal : Palette) (kernel : List Tap)
    (w : ℕ) (data : List Px) (x y : ℕ) : List Px :=
  let i := y * w + x
  let px := data.getD i default
  let c := mapColor px.r px.g px.b p cF pal
  let d1 := data.set i
    { r := storeByte c.c0
      g := storeByte c.c1
      b := storeByte c.c2
      a := if p.knockout ∧ isShadow c pal then 0 else px.a }
  kernel.foldl
    (fun d t =>
      distribute d ((x : ℤ) + t.x) ((y : ℤ) + t.y)
        (px.r - c.c0) (px.g - c.c1) (px.b - c.c2) t.f (w : ℤ))
    d1

/-- Source `processErrDiff`: nested `y`/`x` loops over the `w × h` raster. -/
def processErrDiff (p : DitherParams) (cF : ℚ) (pal : Palette) (kernel : List Tap)
    (w h : ℕ) (data : List Px) : List Px :=
  (List.range h).foldl
    (fun d y => (List.range w).foldl (fun d x => errDiffStep p cF pal kernel w d x y) d)
    data

/-- Source `applyEffectLoop`: dispatch on the algorithm selector. -/
def applyEffectLoop (p : DitherParams) (cF : ℚ) (pal : Palette) (sq cq : ℚ → ℚ)
    (w h : ℕ) (data : List Px) : List Px :=
  match p.algorithm with
  | Algo.none => processSimple p cF pal data
  | Algo.bayer4 => processPattern p cF pal sq cq w h data
  | Algo.bayer8 => processPattern p cF pal sq cq w h data
  | Algo.modulation => processPattern p cF pal sq cq w h data
  | Algo.stitched => processPattern p cF pal sq cq w h data
  | Algo.floyd => processErrDiff p cF pal floydKernel w h data
  | Algo.atkinson => processErrDiff p cF pal atkinsonKernel w h data
  | Algo.sierra => processErrDiff p cF pal sierraKernel w h data

/-- RGBA raster: width, height and a row-major pixel list. -/
structure Raster where
  width : ℕ
  height : ℕ
  data : List Px
  deriving Repr

/-- Nearest-neighbor resample of a raster to `w × h`, modelling the
smoothing-disabled canvas `drawImage` used by `DitherEffect.process` for its
downscale/upscale round trip (the spec fixes nearest-neighbor sampling). -/
def resampleNearest (src : Raster) (w h : ℕ) : Raster :=
  ⟨w, h,
    (List.range (w * h)).map fun j =>
      let x := j % w
      let y := j / w
      src.data.getD ((y * src.height / h) * src.width + x * src.width / w) default⟩

/-- Source `DitherEffect.process`: early return when disabled, else
downscale to `max 1 ⌊size·resolution⌋`, run `applyEffectLoop` at the reduced
size with the per-render contrast factor, and upsample back to the original
dimensions. -/
def ditherProcess (sq cq : ℚ → ℚ) (p : DitherParams) (pal : Palette) (r : Raster) : Raster :=
  if p.enabled then
    let w := max 1 (⌊(r.width : ℚ) * p.resolution⌋.toNat)
    let h := max 1 (⌊(r.height : ℚ) * p.resolution⌋.toNat)
    let small := resampleNearest r w h
    let cF := contrastFactor p.contrast
    resampleNearest ⟨w, h, applyEffectLoop p cF pal sq cq w h small.data⟩ r.width r.height
  else r

/-- Parameter record of the halftone effect (`HalftoneEffect.params`). -/
structure HalftoneParams where
  enabled : Bool
  scale : ℚ
  angleC : ℚ
  angleM : ℚ
  angleY : ℚ
  angleK : ℚ
  opacity : ℚ
  deriving DecidableEq, Repr

/-- Source `HalftoneEffect.process` guard: when disabled the raster is
returned untouched; the enabled branch (the four-layer multiplicative
composite drawn through the canvas) is abstracted as an arbitrary
`render` function, which the disabled path never invokes. -/
def halftoneProcess (render : HalftoneParams → Raster → Raster)
    (p : HalftoneParams) (r : Raster) : Raster :=
  if p.enabled then render p r else r

/-- Cyan coverage `getVal` of the channel table: `255 - r`. -/
def getValC (r _g _b : ℚ) : ℚ := 255 - r

/-- Magenta coverage `getVal`: `255 - g`. -/
def getValM (_r g _b : ℚ) : ℚ := 255 - g

/-- Yellow coverage `getVal`: `255 - b`. -/
def getValY (_r _g b : ℚ) : ℚ := 255 - b

/-- Black coverage `getVal`: `255 - max(r, g, b)`. -/
def getValK (r g b : ℚ) : ℚ := 255 - max r (max g b)

/-- Halftone grid pitch: `max(2, scale * scaleFactor)`. -/
def halftoneStepSize (p : HalftoneParams) (scaleFactor : ℚ) : ℚ :=
  max 2 (p.scale * scaleFactor)

/-- Floored source-column coordinate `Math.floor(x*cos - y*sin + width/2)`
of a rotated grid cell. -/
def halftoneSrcX (width : ℕ) (s c x y : ℚ) : ℤ := ⌊x * c - y * s + (width : ℚ) / 2⌋

/-- Floored source-row coordinate `Math.floor(x*sin + y*cos + height/2)` of
a rotated grid cell. -/
def halftoneSrcY (height : ℕ) (s c x y : ℚ) : ℤ := ⌊x * s + y * c + (height : ℚ) / 2⌋

/-- Sampled source pixel of a rotated grid cell. -/
def halftoneSample (data : List Px) (width height : ℕ) (s c x y : ℚ) : Px :=
  data.getD (halftoneSrcY height s c x y * width + halftoneSrcX width s c x y).toNat default

/-- One grid-cell iteration of the halftone layer loop, for a channel with
rotation sine `s` and cosine `c`: rotate the cell `(x, y)` back, sample the
source pixel at the floored center when it lies inside the raster, and when
the sampled coverage exceeds the threshold `10` produce a dot at the
rotated position with radius `(val/255) * (step/1.2)`; otherwise no dot. -/
def halftoneCellDot (data : List Px) (width height : ℕ) (s c : ℚ)
    (getVal : ℚ → ℚ → ℚ → ℚ) (step x y : ℚ) : Option (ℚ × ℚ × ℚ) :=
  if 0 ≤ halftoneSrcX width s c x y ∧ halftoneSrcX width s c x y < width
     ∧ 0 ≤ halftoneSrcY height s c x y ∧ halftoneSrcY height s c x y < height then
    let px := halftoneSample data width height s c x y
    let val := getVal px.r px.g px.b
    if val > 10 then
      some (x * c - y * s + (width : ℚ) / 2, x * s + y * c + (height : ℚ) / 2,
        (val / 255) * (step / 1.2))
    else none
  else none

/-- Modelled from the spec: `DitherEffect.isGPUSupported` is called by the
dispatcher (`imageProcessor.js`, `tryGPURender`) but is not defined in the
available sources.  The spec states that error-diffusion algorithms never
qualify for the parallel path while ordered/pattern algorithms do. -/
def ditherIsGPUSupported (p : DitherParams) : Bool :=
  match p.algorithm with
  | Algo.floyd => false
  | Algo.atkinson => false
  | Algo.sierra => false
  | _ => true

/-- Dispatcher decision for the dither stage (`tryGPURender`): the parallel
path is only reachable when hardware acceleration is available
(`useGPU && glManager`), and `useDither` additionally requires the stage to
be enabled and its parameters flagged parallel-capable. -/
def useDitherGPU (hwAvailable ditherEnabled : Bool) (p : DitherParams) : Bool :=
  hwAvailable && ditherEnabled && ditherIsGPUSupported p

/-- Dispatcher decision for the halftone stage (`tryGPURender`): available
hardware acceleration plus the stage being enabled. -/
def useHalftoneGPU (hwAvailable halftoneEnabled : Bool) : Bool :=
  hwAvailable && halftoneEnabled

/-! Specification-side definitions, written from the spec text, used to
state the refinement claims against the source embedding above. -/

/-- Spec formula for tonal luminance: `L = 0.299R + 0.587G + 0.114B`. -/
def lumaOf (r g b : ℚ) : ℚ := 0.299 * r + 0.587 * g + 0.114 * b

/-- Spec-side tonal mapping: clamp the luminance to `[0,255]`, then
interpolate shadow→mid with `t = L/128` below 128 and mid→highlight with
`t = (L-128)/127` otherwise. -/
def tonalMapSpec (r g b : ℚ) (pal : Palette) : Col :=
  let L := min 255 (max 0 (lumaOf r g b))
  if L < 128 then lerpColor pal.shadow pal.mid (L / 128)
  else lerpColor pal.mid pal.high ((L - 128) / 127)

/-- Spec formula for the indexed grade level count:
`levels = max(2, floor(count^(1/3)))`. -/
def gradeLevels (count : ℕ) : ℕ := max 2 (icbrt count)

/-- Spec formula for the indexed grade step: `step = 255/(levels-1)`. -/
def gradeStep (count : ℕ) : ℚ := 255 / ((gradeLevels count : ℚ) - 1)

/-- Snap a channel value to the nearest multiple of `step` the way the
source does it: `Math.round(v/step)*step`. -/
def snapTo (step v : ℚ) : ℚ := (jsRound (v / step) : ℚ) * step

/-- Raster-order enumeration of the `w × h` grid: rows top to bottom, each
row left to right. -/
def rasterOrder (w h : ℕ) : List (ℕ × ℕ) :=
  ((List.range h).map (fun y => (List.range w).map (fun x => (x, y)))).flatten

/-- Sample parameter set: grade mode, full-range RGB quantization, no
spatial algorithm, default contrast. -/
def pGradeRgb : DitherParams :=
  ⟨true, 1, Algo.none, RenderMode.grade, ColorSpace.rgb, 16, 0, 1, false⟩

/-- Sample parameter set: grade mode, indexed palette with count 8. -/
def pIndexed8 : DitherParams :=
  ⟨true, 1, Algo.none, RenderMode.grade, ColorSpace.indexed, 8, 0, 1, false⟩

/-- Sample parameter set: tonal mode with knockout enabled. -/
def pTonalKO : DitherParams :=
  ⟨true, 1, Algo.none, RenderMode.tonal, ColorSpace.indexed, 16, 0, 1, true⟩

/-- Sample parameter set: error diffusion (Floyd-Steinberg). -/
def pFloyd : DitherParams :=
  ⟨true, 1, Algo.floyd, RenderMode.grade, ColorSpace.rgb, 16, 0, 1, false⟩

/-- Sample parameter set: ordered pattern (Bayer 4x4). -/
def pBayer : DitherParams :=
  ⟨true, 1, Algo.bayer4, RenderMode.grade, ColorSpace.rgb, 16, 0, 1, false⟩

/-- Sample palette: black shadow, mid gray, white highlight (the default
`#000000`/`#808080`/`#ffffff` parameters after `hexToRgb`). -/
def palGray : Palette := ⟨⟨0, 0, 0⟩, ⟨128, 128, 128⟩, ⟨255, 255, 255⟩⟩

/-! Basic lemmas about the numeric helpers. -/

theorem jsRound_eq_round (q : ℚ) : jsRound q = round q := (round_eq q).symm

theorem clamp_nonneg (v : ℚ) : 0 ≤ clamp v := by
  unfold clamp; split_ifs <;> linarith

theorem clamp_le (v : ℚ) : clamp v ≤ 255 := by
  unfold clamp; split_ifs <;> linarith

theorem clamp_of_mem (v : ℚ) (h0 : 0 ≤ v) (h1 : v ≤ 255) : clamp v = v := by
  unfold clamp; split_ifs <;> linarith

theorem factor_one (v : ℚ) : factor v 1 = clamp v := by
  unfold factor; ring_nf

theorem contrastFactor_zero : contrastFactor 0 = 1 := by
  norm_num [contrastFactor]

theorem toUint8Clamp_intCast (n : ℤ) :
    toUint8Clamp ((n : ℤ) : ℚ) = if n ≤ 0 then 0 else if 255 ≤ n then 255 else n := by
  unfold toUint8Clamp
  have hfloor : ⌊((n : ℤ) : ℚ)⌋ = n := Int.floor_intCast n
  by_cases h0 : n ≤ 0
  · rw [if_pos (by exact_mod_cast h0), if_pos h0]
  · rw [if_neg (by exact_mod_cast h0), if_neg h0]
    by_cases h255 : 255 ≤ n
    · rw [if_pos (by exact_mod_cast h255), if_pos h255]
    · rw [if_neg (by exact_mod_cast h255), if_neg h255, hfloor]
      rw [if_pos (by norm_num)]

theorem storeByte_intCast (n : ℤ) :
    storeByte ((n : ℤ) : ℚ) = ((if n ≤ 0 then 0 else if 255 ≤ n then 255 else n : ℤ) : ℚ) := by
  rw [storeByte, toUint8Clamp_intCast]

/-- Componentwise linear interpolation at `t = 0` returns the first color. -/
theorem lerpColor_zero (x y : Col) : lerpColor x y 0 = x := by
  cases x; cases y
  simp only [lerpColor, Col.mk.injEq]
  refine ⟨by ring, by ring, by ring⟩

/-- Componentwise linear interpolation at `t = 1` returns the second color. -/
theorem lerpColor_one (x y : Col) : lerpColor x y 1 = y := by
  cases x; cases y
  simp only [lerpColor, Col.mk.injEq]
  refine ⟨by ring, by ring, by ring⟩

/-- Claim C5: the Floyd-Steinberg kernel has 4 taps summing to 1, the
Sierra-Lite kernel has 3 taps summing to 1, and the Atkinson kernel has 6
taps of weight 1/8 each, summing to 6/8 = 0.75. -/
theorem claim_C5_kernel_weights :
    floydKernel.length = 4 ∧ (floydKernel.map Tap.f).sum = 1
    ∧ sierraKernel.length = 3 ∧ (sierraKernel.map Tap.f).sum = 1
    ∧ atkinsonKernel.length = 6 ∧ (∀ t ∈ atkinsonKernel, t.f = 1 / 8)
    ∧ (atkinsonKernel.map Tap.f).sum = 6 / 8 := by
  refine ⟨rfl, by norm_num [floydKernel], rfl, by norm_num [sierraKernel], rfl, ?_,
    by norm_num [atkinsonKernel]⟩
  intro t ht
  simp only [atkinsonKernel, List.mem_cons, List.not_mem_nil, or_false] at ht
  rcases ht with h | h | h | h | h | h <;> subst h <;> norm_num

/-- Claim C9: with hardware acceleration available, an enabled dither stage
running an error-diffusion algorithm never qualifies for the parallel path,
an enabled dither stage running an ordered/pattern algorithm qualifies, and
an enabled halftone stage qualifies. -/
theorem claim_C9_parallel_path (p : DitherParams) (hw de he : Bool)
    (hhw : hw = true) (hde : de = true) (hhe : he = true) :
    ((p.algorithm = Algo.floyd ∨ p.algorithm = Algo.atkinson ∨ p.algorithm = Algo.sierra) →
       useDitherGPU hw de p = false)
    ∧ ((p.algorithm = Algo.bayer4 ∨ p.algorithm = Algo.bayer8 ∨
        p.algorithm = Algo.modulation ∨ p.algorithm = Algo.stitched) →
       useDitherGPU hw de p = true)
    ∧ useHalftoneGPU hw he = true := by
  subst hhw; subst hde; subst hhe
  refine ⟨fun h => ?_, fun h => ?_, rfl⟩
  · rcases h with h | h | h <;> simp [useDitherGPU, ditherIsGPUSupported, h]
  · rcases h with h | h | h | h <;> simp [useDitherGPU, ditherIsGPUSupported, h]

/-- Witness for C9 at concrete inputs: Floyd-Steinberg is rejected from the
parallel path while Bayer 4x4 and the halftone stage qualify. -/
theorem claim_C9_witness :
    useDitherGPU true true pFloyd = false
    ∧ useDitherGPU true true pBayer = true
    ∧ useHalftoneGPU true true = true :=
  ⟨(claim_C9_parallel_path pFloyd true true true rfl rfl rfl).1 (Or.inl rfl),
   (claim_C9_parallel_path pBayer true true true rfl rfl rfl).2.1 (Or.inl rfl),
   (claim_C9_parallel_path pBayer true true true rfl rfl rfl).2.2⟩

/-- Claim C10: with `enabled = false`, both effect processes return the
raster unchanged, whatever the enabled-path behavior is. -/
theorem claim_C10_disabled_noop :
    (∀ (sq cq : ℚ → ℚ) (p : DitherParams) (pal : Palette) (r : Raster),
       p.enabled = false → ditherProcess sq cq p pal r = r)
    ∧ (∀ (render : HalftoneParams → Raster → Raster) (p : HalftoneParams) (r : Raster),
       p.enabled = false → halftoneProcess render p r = r) := by
  constructor
  · intro sq cq p pal r h
    simp [ditherProcess, h]
  · intro render p r h
    simp [halftoneProcess, h]

/-- Witness for C10 at a concrete raster and concrete disabled parameters. -/
theorem claim_C10_witness :
    ditherProcess (fun _ => 0) (fun _ => 0)
        ⟨false, 1, Algo.floyd, RenderMode.grade, ColorSpace.rgb, 16, 0, 1, false⟩
        palGray ⟨1, 1, [⟨10, 20, 30, 40⟩]⟩ = ⟨1, 1, [⟨10, 20, 30, 40⟩]⟩
    ∧ halftoneProcess (fun _ _ => ⟨0, 0, []⟩) ⟨false, 4, 15, 75, 0, 45, 0.8⟩
        ⟨1, 1, [⟨10, 20, 30, 40⟩]⟩ = ⟨1, 1, [⟨10, 20, 30, 40⟩]⟩ :=
  ⟨claim_C10_disabled_noop.1 (fun _ => 0) (fun _ => 0) _ palGray _ rfl,
   claim_C10_disabled_noop.2 (fun _ _ => ⟨0, 0, []⟩) _ _ rfl⟩

theorem if_lt_zero_eq_max (l : ℚ) : (if l < 0 then (0 : ℚ) else l) = max 0 l := by
  rcases lt_or_le l 0 with h | h
  · rw [if_pos h, max_eq_left h.le]
  · rw [if_neg (not_lt.2 h), max_eq_right h]

theorem if_gt_eq_min (m : ℚ) : (if m > 255 then (255 : ℚ) else m) = min 255 m := by
  rcases lt_or_le 255 m with h | h
  · rw [if_pos h, min_eq_left h.le]
  · rw [if_neg (not_lt.2 h), min_eq_right h]

/-- In tonal mode `mapColor` agrees with the spec-side three-stop gradient
map. -/
theorem mapColor_tonal (p : DitherParams) (cF : ℚ) (pal : Palette) (r g b : ℚ)
    (hmode : p.renderMode = RenderMode.tonal) :
    mapColor r g b p cF pal = tonalMapSpec r g b pal := by
  unfold mapColor tonalMapSpec lumaOf
  rw [hmode]
  simp only [reduceCtorEq, false_and, if_false]
  rw [if_lt_zero_eq_max, if_gt_eq_min]

/-- Claim C1: in tonal mode, `mapColor` realizes the spec's three-stop
gradient map of the clamped luminance `0.299R + 0.587G + 0.114B`
(shadow→mid with `t = L/128` below 128, mid→highlight with
`t = (L-128)/127` otherwise), and the stops are exact: luminance 0 gives
the shadow color, 128 the mid color, 255 the highlight color. -/
theorem claim_C1_tonal_map (p : DitherParams) (cF : ℚ) (pal : Palette) (r g b : ℚ)
    (hmode : p.renderMode = RenderMode.tonal) :
    mapColor r g b p cF pal = tonalMapSpec r g b pal
    ∧ (lumaOf r g b = 0 → mapColor r g b p cF pal = pal.shadow)
    ∧ (lumaOf r g b = 128 → mapColor r g b p cF pal = pal.mid)
    ∧ (lumaOf r g b = 255 → mapColor r g b p cF pal = pal.high) := by
  have hmain : mapColor r g b p cF pal = tonalMapSpec r g b pal :=
    mapColor_tonal p cF pal r g b hmode
  refine ⟨hmain, fun h0 => ?_, fun h128 => ?_, fun h255 => ?_⟩
  · rw [hmain]; unfold tonalMapSpec; rw [h0]; norm_num [lerpColor_zero]
  · rw [hmain]; unfold tonalMapSpec; rw [h128]; norm_num [lerpColor_zero]
  · rw [hmain]; unfold tonalMapSpec; rw [h255]; norm_num [lerpColor_one]

/-- Witness for C1: a pure black pixel maps exactly to the shadow color and
a pure white pixel exactly to the highlight color of the default palette. -/
theorem claim_C1_witness :
    mapColor 0 0 0 pTonalKO 1 palGray = palGray.shadow
    ∧ mapColor 255 255 255 pTonalKO 1 palGray = palGray.high :=
  ⟨(claim_C1_tonal_map pTonalKO 1 palGray 0 0 0 rfl).2.1 (by norm_num [lumaOf]),
   (claim_C1_tonal_map pTonalKO 1 palGray 255 255 255 rfl).2.2.2 (by norm_num [lumaOf])⟩

/-- Claim C8: for a halftone grid cell whose sampled source pixel lies in
the raster, a dot is produced exactly when the sampled channel coverage
exceeds the threshold 10 (of 255), its radius is
`(coverage/255)·(pitch/1.2)`; the four ink coverages are `255-R`, `255-G`,
`255-B` and `255-max(R,G,B)`, all four vanish on a pure white pixel, and a
cell sampling a pure white pixel draws no dot on any of the four inks. -/
theorem claim_C8_halftone_dot (data : List Px) (width height : ℕ) (s c : ℚ)
    (gv : ℚ → ℚ → ℚ → ℚ) (step x y : ℚ)
    (hin : 0 ≤ halftoneSrcX width s c x y ∧ halftoneSrcX width s c x y < width
         ∧ 0 ≤ halftoneSrcY height s c x y ∧ halftoneSrcY height s c x y < height) :
    ((halftoneCellDot data width height s c gv step x y).isSome ↔
       10 < gv (halftoneSample data width height s c x y).r
               (halftoneSample data width height s c x y).g
               (halftoneSample data width height s c x y).b)
    ∧ (∀ dX dY rad, halftoneCellDot data width height s c gv step x y = some (dX, dY, rad) →
         rad = (gv (halftoneSample data width height s c x y).r
                   (halftoneSample data width height s c x y).g
                   (halftoneSample data width height s c x y).b / 255) * (step / 1.2))
    ∧ (getValC 255 255 255 = 0 ∧ getValM 255 255 255 = 0 ∧ getValY 255 255 255 = 0
       ∧ getValK 255 255 255 = 0)
    ∧ ((halftoneSample data width height s c x y).r = 255 →
       (halftoneSample data width height s c x y).g = 255 →
       (halftoneSample data width height s c x y).b = 255 →
       ∀ gv2, (gv2 = getValC ∨ gv2 = getValM ∨ gv2 = getValY ∨ gv2 = getValK) →
         halftoneCellDot data width height s c gv2 step x y = none) := by
  refine ⟨?_, ?_, ⟨by norm_num [getValC], by norm_num [getValM], by norm_num [getValY],
    by norm_num [getValK]⟩, ?_⟩
  · unfold halftoneCellDot
    rw [if_pos hin]
    by_cases hval : 10 < gv (halftoneSample data width height s c x y).r
        (halftoneSample data width height s c x y).g
        (halftoneSample data width height s c x y).b
    · simp [hval]
    · simp [hval]
  · intro dX dY rad heq
    unfold halftoneCellDot at heq
    rw [if_pos hin] at heq
    by_cases hval : 10 < gv (halftoneSample data width height s c x y).r
        (halftoneSample data width height s c x y).g
        (halftoneSample data width height s c x y).b
    · simp only [gt_iff_lt, hval, if_true, Option.some.injEq, Prod.mk.injEq] at heq
      exact heq.2.2.symm
    · simp only [gt_iff_lt, hval, if_false, reduceCtorEq] at heq
  · intro hr hg hb gv2 hgv2
    unfold halftoneCellDot
    rw [if_pos hin]
    have hz : gv2 (halftoneSample data width height s c x y).r
        (halftoneSample data width height s c x y).g
        (halftoneSample data width height s c x y).b = 0 := by
      rcases hgv2 with h | h | h | h <;> subst h <;>
        rw [hr, hg, hb] <;> norm_num [getValC, getValM, getValY, getValK]
    simp only [hz, gt_iff_lt]
    norm_num

/-- Witness for C8: a 2x2 pure white raster at angle 0 draws no black-ink
dot at the cell (0, 0). -/
theorem claim_C8_witness :
    halftoneCellDot
        [⟨255, 255, 255, 255⟩, ⟨255, 255, 255, 255⟩, ⟨255, 255, 255, 255⟩, ⟨255, 255, 255, 255⟩]
        2 2 0 1 getValK 2 0 0 = none := by
  have hin : 0 ≤ halftoneSrcX 2 0 1 0 0 ∧ halftoneSrcX 2 0 1 0 0 < 2
      ∧ 0 ≤ halftoneSrcY 2 0 1 0 0 ∧ halftoneSrcY 2 0 1 0 0 < 2 := by
    norm_num [halftoneSrcX, halftoneSrcY, Int.floor_eq_iff]
  have hs : halftoneSample
      [⟨255, 255, 255, 255⟩, ⟨255, 255, 255, 255⟩, ⟨255, 255, 255, 255⟩, ⟨255, 255, 255, 255⟩]
      2 2 0 1 0 0 = ⟨255, 255, 255, 255⟩ := by
    have hx : halftoneSrcX 2 0 1 0 0 = 1 := by
      norm_num [halftoneSrcX, Int.floor_eq_iff]
    have hy : halftoneSrcY 2 0 1 0 0 = 1 := by
      norm_num [halftoneSrcY, Int.floor_eq_iff]
    rw [halftoneSample, hx, hy]
    rfl
  exact (claim_C8_halftone_dot _ 2 2 0 1 getValK 2 0 0 hin).2.2.2
    (by rw [hs]) (by rw [hs]) (by rw [hs]) getValK (Or.inr (Or.inr (Or.inr rfl)))

theorem jsRound_intCast (k : ℤ) : jsRound ((k : ℤ) : ℚ) = k := by
  rw [jsRound_eq_round, round_intCast]

/-- The source snap `Math.round(v/step)*step` picks a nearest multiple of
`step`. -/
theorem snap_nearest (step v : ℚ) (hs : 0 < step) (k : ℤ) :
    |snapTo step v - v| ≤ |(k : ℚ) * step - v| := by
  have hstep : step ≠ 0 := ne_of_gt hs
  rw [snapTo, jsRound_eq_round]
  have e1 : (round (v / step) : ℚ) * step - v = (round (v / step) - v / step) * step := by
    field_simp
  have e2 : (k : ℚ) * step - v = (k - v / step) * step := by
    field_simp
  rw [e1, e2, abs_mul, abs_mul, abs_of_pos hs]
  apply mul_le_mul_of_nonneg_right _ hs.le
  calc |(round (v / step) : ℚ) - v / step| = |v / step - round (v / step)| := abs_sub_comm _ _
    _ ≤ |v / step - k| := round_le _ _
    _ = |(k : ℚ) - v / step| := abs_sub_comm _ _

theorem jsRound_div8_bounds (v : ℚ) (h0 : 0 ≤ v) (h1 : v ≤ 255) :
    0 ≤ jsRound (v / 8) ∧ jsRound (v / 8) ≤ 32 := by
  constructor
  · rw [jsRound]
    exact Int.le_floor.2 (by push_cast; linarith)
  · have : jsRound (v / 8) < 33 := by
      rw [jsRound]
      exact Int.floor_lt.2 (by push_cast; linarith)
    omega

theorem jsRound_div255_bounds (v : ℚ) (h0 : 0 ≤ v) (h1 : v ≤ 255) :
    jsRound (v / 255) = 0 ∨ jsRound (v / 255) = 1 := by
  have hlow : 0 ≤ jsRound (v / 255) := by
    rw [jsRound]
    exact Int.le_floor.2 (by push_cast; linarith)
  have hhigh : jsRound (v / 255) < 2 := by
    rw [jsRound]
    exact Int.floor_lt.2 (by push_cast; linarith)
  omega

theorem if_lt_two_eq_max (n : ℕ) : (if n < 2 then 2 else n) = max 2 n := by
  rcases Nat.lt_or_ge n 2 with h | h
  · rw [if_pos h]; omega
  · rw [if_neg (by omega)]; omega

theorem foldl_max_le (l : List ℕ) : ∀ a k, a ≤ k → (∀ m ∈ l, m ≤ k) → l.foldl max a ≤ k := by
  induction l with
  | nil => intro a k ha _; simpa using ha
  | cons x xs ih =>
      intro a k ha h
      simp only [List.foldl_cons]
      exact ih (max a x) k (max_le ha (h x (List.mem_cons_self x xs)))
        (fun m hm => h m (List.mem_cons_of_mem x hm))

theorem icbrt_lt_two (n : ℕ) (h : n < 8) : icbrt n < 2 := by
  have : icbrt n ≤ 1 := by
    apply foldl_max_le _ 0 1 (by omega)
    intro m hm
    simp only [List.mem_filter, decide_eq_true_eq] at hm
    by_contra hm2
    have h2 : 2 ≤ m := by omega
    have : 8 ≤ m * m * m := by nlinarith
    omega
  omega

theorem icbrt_eight : icbrt 8 = 2 := by
  simp [icbrt, List.range_succ]

theorem gradeLevels_ge_two (n : ℕ) : 2 ≤ gradeLevels n := le_max_left _ _

theorem gradeStep_pos (n : ℕ) : 0 < gradeStep n := by
  unfold gradeStep
  apply div_pos (by norm_num)
  have h : (2 : ℚ) ≤ (gradeLevels n : ℚ) := by exact_mod_cast gradeLevels_ge_two n
  linarith

/-- In grade/indexed mode with unit contrast factor, `mapColor` is the
per-channel snap to multiples of `gradeStep` on in-range channels. -/
theorem mapColor_grade_indexed (p : DitherParams) (cF : ℚ) (pal : Palette) (r g b : ℚ)
    (hmode : p.renderMode = RenderMode.grade) (hcs : p.colorSpace = ColorSpace.indexed)
    (hcF : cF = 1)
    (hr0 : 0 ≤ r) (hr1 : r ≤ 255) (hg0 : 0 ≤ g) (hg1 : g ≤ 255) (hb0 : 0 ≤ b) (hb1 : b ≤ 255) :
    mapColor r g b p cF pal =
      ⟨snapTo (gradeStep p.indexedCount) r, snapTo (gradeStep p.indexedCount) g,
       snapTo (gradeStep p.indexedCount) b⟩ := by
  subst hcF
  unfold mapColor
  rw [hmode]
  simp only [and_true, if_true, one_ne_zero, ne_eq, not_false_eq_true, reduceIte]
  rw [factor_one, factor_one, factor_one, clamp_of_mem r hr0 hr1, clamp_of_mem g hg0 hg1,
    clamp_of_mem b hb0 hb1]
  rw [hcs]
  simp only [if_lt_two_eq_max]
  rfl

/-- In grade/rgb mode with unit contrast factor, `mapColor` is the
per-channel snap to multiples of 8 on in-range channels. -/
theorem mapColor_grade_rgb (p : DitherParams) (cF : ℚ) (pal : Palette) (r g b : ℚ)
    (hmode : p.renderMode = RenderMode.grade) (hcs : p.colorSpace = ColorSpace.rgb)
    (hcF : cF = 1)
    (hr0 : 0 ≤ r) (hr1 : r ≤ 255) (hg0 : 0 ≤ g) (hg1 : g ≤ 255) (hb0 : 0 ≤ b) (hb1 : b ≤ 255) :
    mapColor r g b p cF pal = ⟨snapTo 8 r, snapTo 8 g, snapTo 8 b⟩ := by
  subst hcF
  unfold mapColor
  rw [hmode]
  simp only [and_true, if_true, one_ne_zero, ne_eq, not_false_eq_true, reduceIte]
  rw [factor_one, factor_one, factor_one, clamp_of_mem r hr0 hr1, clamp_of_mem g hg0 hg1,
    clamp_of_mem b hb0 hb1]
  rw [hcs]
  rfl

/-- Claim C2: grade/indexed quantization uses
`levels = max(2, floor(count^(1/3)))` (the source's floor-at-2 conditional
agrees with the spec's max) and `step = 255/(levels-1)`, snapping each
channel to a nearest multiple of `step`; a count below 8 still yields
2 levels, and at count 8 (`levels = 2`, `step = 255`) every channel maps
to exactly 0 or 255. -/
theorem claim_C2_indexed_quant (p : DitherParams) (cF : ℚ) (pal : Palette) (r g b : ℚ)
    (hmode : p.renderMode = RenderMode.grade) (hcs : p.colorSpace = ColorSpace.indexed)
    (hc : p.contrast = 0) (hcF : cF = contrastFactor p.contrast)
    (hr0 : 0 ≤ r) (hr1 : r ≤ 255) (hg0 : 0 ≤ g) (hg1 : g ≤ 255) (hb0 : 0 ≤ b) (hb1 : b ≤ 255) :
    ((if icbrt p.indexedCount < 2 then 2 else icbrt p.indexedCount) = gradeLevels p.indexedCount)
    ∧ mapColor r g b p cF pal =
        ⟨snapTo (gradeStep p.indexedCount) r, snapTo (gradeStep p.indexedCount) g,
         snapTo (gradeStep p.indexedCount) b⟩
    ∧ (∀ (v : ℚ) (k : ℤ),
         |snapTo (gradeStep p.indexedCount) v - v| ≤ |(k : ℚ) * gradeStep p.indexedCount - v|)
    ∧ (p.indexedCount < 8 → gradeLevels p.indexedCount = 2)
    ∧ (p.indexedCount = 8 →
         gradeLevels p.indexedCount = 2 ∧ gradeStep p.indexedCount = 255
         ∧ (∀ v : ℚ, 0 ≤ v → v ≤ 255 → snapTo 255 v = 0 ∨ snapTo 255 v = 255)) := by
  have hcF1 : cF = 1 := by rw [hcF, hc, contrastFactor_zero]
  refine ⟨if_lt_two_eq_max _,
    mapColor_grade_indexed p cF pal r g b hmode hcs hcF1 hr0 hr1 hg0 hg1 hb0 hb1,
    fun v k => snap_nearest _ v (gradeStep_pos _) k, fun h8 => ?_, fun h8 => ?_⟩
  · unfold gradeLevels
    have := icbrt_lt_two p.indexedCount h8
    omega
  · have hl : gradeLevels p.indexedCount = 2 := by
      unfold gradeLevels
      rw [h8, icbrt_eight]
      rfl
    have hs : gradeStep p.indexedCount = 255 := by
      unfold gradeStep
      rw [hl]
      norm_num
    refine ⟨hl, hs, fun v hv0 hv1 => ?_⟩
    rcases jsRound_div255_bounds v hv0 hv1 with h | h
    · left; rw [snapTo, h]; norm_num
    · right; rw [snapTo, h]; norm_num

/-- Witness for C2: the spec scenario pixel (200, 100, 50) with count 8
quantizes to (255, 0, 0). -/
theorem claim_C2_witness :
    mapColor 200 100 50 pIndexed8 (contrastFactor 0) palGray = ⟨255, 0, 0⟩ := by
  have h := claim_C2_indexed_quant pIndexed8 (contrastFactor 0) palGray 200 100 50
    rfl rfl rfl rfl (by norm_num) (by norm_num) (by norm_num) (by norm_num) (by norm_num)
    (by norm_num)
  rw [h.2.1]
  have hs : gradeStep pIndexed8.indexedCount = 255 := (h.2.2.2.2 rfl).2.1
  rw [hs]
  have h200 : jsRound ((200 : ℚ) / 255) = 1 := by
    rw [jsRound, Int.floor_eq_iff]
    norm_num
  have h100 : jsRound ((100 : ℚ) / 255) = 0 := by
    rw [jsRound, Int.floor_eq_iff]
    norm_num
  have h50 : jsRound ((50 : ℚ) / 255) = 0 := by
    rw [jsRound, Int.floor_eq_iff]
    norm_num
  rw [snapTo, snapTo, snapTo, h200, h100, h50]
  norm_num

/-- Counterexample for C3 as stated: at channel value 255 the grade/rgb
quantizer outputs 256, which is not within `[0, 255]`, so the set of
representable outputs is not contained in `[0, 255]`. -/
theorem claim_C3_counterexample :
    (mapColor 255 255 255 pGradeRgb (contrastFactor 0) palGray).c0 = 256
    ∧ ¬ (mapColor 255 255 255 pGradeRgb (contrastFactor 0) palGray).c0 ≤ 255 := by
  have h := mapColor_grade_rgb pGradeRgb (contrastFactor 0) palGray 255 255 255
    rfl rfl (by rw [contrastFactor_zero]) (by norm_num) (by norm_num) (by norm_num)
    (by norm_num) (by norm_num) (by norm_num)
  have h255 : snapTo 8 (255 : ℚ) = 256 := by
    rw [snapTo]
    have : jsRound ((255 : ℚ) / 8) = 32 := by
      rw [jsRound, Int.floor_eq_iff]
      norm_num
    rw [this]
    norm_num
  constructor
  · rw [h]; exact h255
  · rw [h]
    simp only [h255]
    norm_num

/-- Claim C3 (amended): grade/rgb quantization snaps every in-range channel
to a nearest multiple of 8, but the output range is the 33 multiples of 8
from 0 to 256 — 33 representable levels, not 32, with the top level 256
outside `[0,255]` (the byte store clamps it to 255 afterwards). -/
theorem claim_C3_amended (p : DitherParams) (cF : ℚ) (pal : Palette) (r g b : ℚ)
    (hmode : p.renderMode = RenderMode.grade) (hcs : p.colorSpace = ColorSpace.rgb)
    (hc : p.contrast = 0) (hcF : cF = contrastFactor p.contrast)
    (hr0 : 0 ≤ r) (hr1 : r ≤ 255) (hg0 : 0 ≤ g) (hg1 : g ≤ 255) (hb0 : 0 ≤ b) (hb1 : b ≤ 255) :
    mapColor r g b p cF pal = ⟨snapTo 8 r, snapTo 8 g, snapTo 8 b⟩
    ∧ (∃ k : ℤ, snapTo 8 r = 8 * k ∧ 0 ≤ k ∧ k ≤ 32)
    ∧ (∀ k : ℤ, |snapTo 8 r - r| ≤ |(k : ℚ) * 8 - r|)
    ∧ (∀ k : ℤ, 0 ≤ k → k ≤ 32 → ∃ v : ℚ, 0 ≤ v ∧ v ≤ 255 ∧ snapTo 8 v = 8 * k)
    ∧ snapTo 8 255 = 256
    ∧ storeByte (snapTo 8 255) = 255 := by
  have hcF1 : cF = 1 := by rw [hcF, hc, contrastFactor_zero]
  have h255 : snapTo 8 (255 : ℚ) = 256 := by
    rw [snapTo]
    have : jsRound ((255 : ℚ) / 8) = 32 := by
      rw [jsRound, Int.floor_eq_iff]
      norm_num
    rw [this]
    norm_num
  refine ⟨mapColor_grade_rgb p cF pal r g b hmode hcs hcF1 hr0 hr1 hg0 hg1 hb0 hb1,
    ?_, fun k => snap_nearest 8 r (by norm_num) k, fun k hk0 hk32 => ?_, h255, ?_⟩
  · refine ⟨jsRound (r / 8), by rw [snapTo]; ring, (jsRound_div8_bounds r hr0 hr1).1,
      (jsRound_div8_bounds r hr0 hr1).2⟩
  · by_cases hk : k = 32
    · subst hk
      exact ⟨255, by norm_num, by norm_num, by rw [h255]; norm_num⟩
    · have hkq0 : (0 : ℚ) ≤ (k : ℚ) := by exact_mod_cast hk0
      have hkq31 : (k : ℚ) ≤ 31 := by exact_mod_cast (show k ≤ 31 by omega)
      refine ⟨((8 * k : ℤ) : ℚ), by push_cast; linarith, ?_, ?_⟩
      · show ((8 * k : ℤ) : ℚ) ≤ 255
        push_cast
        linarith
      · rw [snapTo]
        have he : ((8 * k : ℤ) : ℚ) / 8 = ((k : ℤ) : ℚ) := by push_cast; ring
        rw [he, jsRound_intCast]
        ring
  · rw [h255]
    have : ((256 : ℚ)) = ((256 : ℤ) : ℚ) := by norm_num
    rw [this, storeByte_intCast]
    norm_num

/-- Witness for C3 (amended) at the concrete pixel (255, 10, 100): the
quantizer output is (256, 8, 104), the top channel exceeding 255. -/
theorem claim_C3_witness :
    mapColor 255 10 100 pGradeRgb (contrastFactor 0) palGray = ⟨256, 8, 104⟩ := by
  have h := claim_C3_amended pGradeRgb (contrastFactor 0) palGray 255 10 100
    rfl rfl rfl rfl (by norm_num) (by norm_num) (by norm_num) (by norm_num) (by norm_num)
    (by norm_num)
  rw [h.1]
  have h10 : jsRound ((10 : ℚ) / 8) = 1 := by
    rw [jsRound, Int.floor_eq_iff]
    norm_num
  have h100 : jsRound ((100 : ℚ) / 8) = 13 := by
    rw [jsRound, Int.floor_eq_iff]
    norm_num
  rw [snapTo, snapTo, snapTo, h10, h100]
  have h255 : jsRound ((255 : ℚ) / 8) = 32 := by
    rw [jsRound, Int.floor_eq_iff]
    norm_num
  rw [h255]
  norm_num

/-- Nested `y`/`x` loops over a `w × h` grid are the fold over the
raster-order enumeration of the grid. -/
theorem nested_foldl_eq_rasterOrder {α : Type} (step : α → ℕ → ℕ → α) (w h : ℕ) (d : α) :
    (List.range h).foldl (fun d y => (List.range w).foldl (fun d x => step d x y) d) d
      = (rasterOrder w h).foldl (fun d xy => step d xy.1 xy.2) d := by
  unfold rasterOrder
  rw [List.foldl_flatten, List.foldl_map]
  simp only [List.foldl_map]

/-- Claim C4: error diffusion folds the per-pixel step over the raster in
raster order (left-to-right within each row, rows top-to-bottom); the
residual distributor leaves the raster untouched whenever the target column
is outside `[0, w)` or the target index is outside the array (so
out-of-raster shares are dropped with no wraparound), and an in-bounds
target receives exactly the weighted residual on its three color
channels. -/
theorem claim_C4_error_diffusion (p : DitherParams) (cF : ℚ) (pal : Palette)
    (kernel : List Tap) (w h : ℕ) (data : List Px) :
    processErrDiff p cF pal kernel w h data
      = (rasterOrder w h).foldl (fun d xy => errDiffStep p cF pal kernel w d xy.1 xy.2) data
    ∧ (∀ (d : List Px) (x y : ℤ) (er eg eb f : ℚ) (wi : ℤ),
         (x < 0 ∨ wi ≤ x ∨ y * wi + x < 0 ∨ (d.length : ℤ) ≤ y * wi + x) →
         distribute d x y er eg eb f wi = d)
    ∧ (∀ (d : List Px) (x y : ℤ) (er eg eb f : ℚ) (wi : ℤ),
         0 ≤ x → x < wi → 0 ≤ y * wi + x → y * wi + x < (d.length : ℤ) →
         distribute d x y er eg eb f wi =
           d.set (y * wi + x).toNat
             { d.getD (y * wi + x).toNat default with
               r := storeByte (clamp ((d.getD (y * wi + x).toNat default).r + er * f))
               g := storeByte (clamp ((d.getD (y * wi + x).toNat default).g + eg * f))
               b := storeByte (clamp ((d.getD (y * wi + x).toNat default).b + eb * f)) }) := by
  refine ⟨nested_foldl_eq_rasterOrder _ w h data, ?_, ?_⟩
  · intro d x y er eg eb f wi hout
    simp only [distribute]
    by_cases h1 : x < 0 ∨ wi ≤ x
    · rw [if_pos h1]
    · rw [if_neg h1]
      by_cases h2 : y * wi + x < 0 ∨ (d.length : ℤ) ≤ y * wi + x
      · rw [if_pos h2]
      · exfalso
        push_neg at h1 h2
        rcases hout with hc | hc | hc | hc
        · linarith [h1.1]
        · linarith [h1.2]
        · linarith [h2.1]
        · linarith [h2.2]
  · intro d x y er eg eb f wi hx0 hxw hi0 hil
    simp only [distribute]
    rw [if_neg (by push_neg; exact ⟨hx0, hxw⟩), if_neg (by push_neg; exact ⟨hi0, hil⟩)]

/-- Witness for C4 at a concrete call: a residual share aimed at column 1
of a width-1 raster is dropped, leaving the raster unchanged. -/
theorem claim_C4_witness :
    distribute [⟨1, 2, 3, 4⟩] 1 0 5 5 5 (7 / 16) 1 = [⟨1, 2, 3, 4⟩] :=
  (claim_C4_error_diffusion pGradeRgb 1 palGray floydKernel 1 1 []).2.1
    [⟨1, 2, 3, 4⟩] 1 0 5 5 5 (7 / 16) 1
    (Or.inr (Or.inl (by norm_num)))

theorem getD_map (f : Px → Px) (l : List Px) (j : ℕ) (h : j < l.length) :
    (l.map f).getD j default = f (l.getD j default) := by
  rw [List.getD_eq_getElem _ _ (by simpa using h), List.getD_eq_getElem _ _ h,
    List.getElem_map]

theorem getD_set_self (l : List Px) (i : ℕ) (v : Px) (h : i < l.length) :
    (l.set i v).getD i default = v := by
  rw [List.getD_eq_getElem _ _ (by simpa using h)]
  simp

theorem getD_set_ne (l : List Px) (i j : ℕ) (v : Px) (hne : i ≠ j) :
    (l.set i v).getD j default = l.getD j default := by
  by_cases hj : j < l.length
  · rw [List.getD_eq_getElem _ _ (by simpa using hj), List.getD_eq_getElem _ _ hj]
    exact List.getElem_set_ne hne _
  · rw [List.getD_eq_default _ _ (by simpa using hj), List.getD_eq_default _ _ (by omega)]

theorem foldl_set_length (g : ℕ → Px → Px) (idxs : List ℕ) (data : List Px) :
    (idxs.foldl (fun d i => d.set i (g i (d.getD i default))) data).length = data.length := by
  induction idxs generalizing data with
  | nil => rfl
  | cons i t ih => simp only [List.foldl_cons]; rw [ih, List.length_set]

/-- A fold of independent single-pixel writes over a duplicate-free index
list acts pointwise: position `j` holds `g j` of its old value when `j` is
listed, and its old value otherwise. -/
theorem foldl_set_getD (g : ℕ → Px → Px) (idxs : List ℕ) :
    ∀ (data : List Px), idxs.Nodup → ∀ j, j < data.length →
      (idxs.foldl (fun d i => d.set i (g i (d.getD i default))) data).getD j default
        = if j ∈ idxs then g j (data.getD j default) else data.getD j default := by
  induction idxs with
  | nil => intro data _ j _; simp
  | cons i t ih =>
      intro data hnd j hj
      have hnd' := List.nodup_cons.1 hnd
      simp only [List.foldl_cons]
      rw [ih _ hnd'.2 j (by rw [List.length_set]; exact hj)]
      by_cases hji : j = i
      · subst hji
        rw [if_neg hnd'.1, if_pos (List.mem_cons_self j t), getD_set_self data j _ hj]
      · rw [getD_set_ne data i j _ (fun he => hji he.symm)]
        by_cases hjt : j ∈ t
        · rw [if_pos hjt, if_pos (List.mem_cons_of_mem i hjt)]
        · rw [if_neg hjt, if_neg (by simp [hji, hjt])]

/-- Mapping raster-order coordinates to flat indices `y*w + x` enumerates
`range (h*w)` in order. -/
theorem rasterOrder_map_index (w h : ℕ) :
    (rasterOrder w h).map (fun xy => xy.2 * w + xy.1) = List.range (h * w) := by
  unfold rasterOrder
  induction h with
  | zero => simp
  | succ n ih =>
      rw [List.range_succ, List.map_append, List.flatten_append, List.map_append, ih]
      simp only [List.map_cons, List.map_nil, List.flatten_cons, List.flatten_nil,
        List.append_nil, List.map_map]
      have hrow : (List.range w).map ((fun xy : ℕ × ℕ => xy.2 * w + xy.1) ∘ fun x => (x, n))
          = (List.range w).map (fun x => n * w + x) := by
        apply List.map_congr_left
        intro x _
        rfl
      rw [hrow, Nat.succ_mul, List.range_add]

theorem mem_rasterOrder (w h : ℕ) (xy : ℕ × ℕ) (hm : xy ∈ rasterOrder w h) :
    xy.1 < w ∧ xy.2 < h := by
  unfold rasterOrder at hm
  rw [List.mem_flatten] at hm
  obtain ⟨row, hrow, hxy⟩ := hm
  rw [List.mem_map] at hrow
  obtain ⟨y, hy, rfl⟩ := hrow
  rw [List.mem_map] at hxy
  obtain ⟨x, hx, rfl⟩ := hxy
  exact ⟨List.mem_range.1 hx, List.mem_range.1 hy⟩

/-- The ordered-pattern loop acts pointwise: pixel `j` of the output is the
pattern transform of pixel `j` of the input, at coordinates
`(j % w, j / w)`. -/
theorem processPattern_getD (p : DitherParams) (cF : ℚ) (pal : Palette) (sq cq : ℚ → ℚ)
    (w h : ℕ) (data : List Px) (hw : 0 < w) (hlen : data.length = w * h)
    (j : ℕ) (hj : j < w * h) :
    (processPattern p cF pal sq cq w h data).getD j default
      = patternPixel p cF pal sq cq (j % w) (j / w) (data.getD j default) := by
  have h1 : processPattern p cF pal sq cq w h data
      = (rasterOrder w h).foldl (fun d xy => patternStep p cF pal sq cq w d xy.1 xy.2) data :=
    nested_foldl_eq_rasterOrder (patternStep p cF pal sq cq w) w h data
  have h2 : (rasterOrder w h).foldl (fun d xy => patternStep p cF pal sq cq w d xy.1 xy.2) data
      = ((rasterOrder w h).map (fun xy => xy.2 * w + xy.1)).foldl
          (fun d i =>
            d.set i (patternPixel p cF pal sq cq (i % w) (i / w) (d.getD i default))) data := by
    rw [List.foldl_map]
    apply List.foldl_ext
    intro d xy hxy
    obtain ⟨hx, _⟩ := mem_rasterOrder w h xy hxy
    unfold patternStep
    have hmod : (xy.2 * w + xy.1) % w = xy.1 := by
      rw [Nat.add_comm, Nat.add_mul_mod_self_right, Nat.mod_eq_of_lt hx]
    have hdiv : (xy.2 * w + xy.1) / w = xy.2 := by
      rw [Nat.add_comm, Nat.add_mul_div_right _ _ hw, Nat.div_eq_of_lt hx, Nat.zero_add]
    rw [hmod, hdiv]
  rw [h1, h2, rasterOrder_map_index]
  rw [foldl_set_getD _ _ data (List.nodup_range _) j (by rw [hlen]; exact hj)]
  rw [if_pos (List.mem_range.2 (by rw [Nat.mul_comm h w]; exact hj))]

/-- Claim C7: with knockout active, after color mapping a pixel's alpha is
set to 0 exactly when the mapped color equals the shadow color on every
channel (strict equality); otherwise the alpha is left unchanged.  This
holds for the simple (no-algorithm) loop and for the ordered-pattern
loop. -/
theorem claim_C7_knockout_strict (p : DitherParams) (cF : ℚ) (pal : Palette)
    (hko : p.knockout = true) :
    (∀ (data : List Px) (j : ℕ), j < data.length →
       ((processSimple p cF pal data).getD j default).a
         = (if isShadow (mapColor (data.getD j default).r (data.getD j default).g
               (data.getD j default).b p cF pal) pal then 0 else (data.getD j default).a))
    ∧ (∀ (sq cq : ℚ → ℚ) (w h : ℕ) (data : List Px) (j : ℕ),
         0 < w → data.length = w * h → j < w * h →
         ((processPattern p cF pal sq cq w h data).getD j default).a
           = (if isShadow
                 (mapColor
                   ((data.getD j default).r + patternBias p sq cq (j % w) (j / w))
                   ((data.getD j default).g + patternBias p sq cq (j % w) (j / w))
                   ((data.getD j default).b + patternBias p sq cq (j % w) (j / w)) p cF pal) pal
              then 0 else (data.getD j default).a)) := by
  constructor
  · intro data j hj
    unfold processSimple
    rw [getD_map _ _ _ hj]
    simp only [simplePixel, hko, true_and]
  · intro sq cq w h data j hw hlen hj
    rw [processPattern_getD p cF pal sq cq w h data hw hlen j hj]
    simp only [patternPixel, hko, true_and]

/-- Witness for C7: a black pixel in tonal mode with the default palette
maps exactly to the shadow color, so knockout clears its alpha. -/
theorem claim_C7_witness :
    ((processSimple pTonalKO 1 palGray [⟨0, 0, 0, 9⟩]).getD 0 default).a = 0 := by
  have h := (claim_C7_knockout_strict pTonalKO 1 palGray rfl).1 [⟨0, 0, 0, 9⟩] 0 (by norm_num)
  rw [h]
  simp only [List.getD_cons_zero]
  have hmap : mapColor 0 0 0 pTonalKO 1 palGray = ⟨0, 0, 0⟩ := by
    rw [mapColor_tonal pTonalKO 1 palGray 0 0 0 rfl]
    norm_num [tonalMapSpec, lumaOf, lerpColor, palGray]
  rw [hmap]
  simp [isShadow, palGray]

theorem snapTo_eight_255 : snapTo 8 (255 : ℚ) = 256 := by
  rw [snapTo]
  have h : jsRound ((255 : ℚ) / 8) = 32 := by
    rw [jsRound, Int.floor_eq_iff]
    norm_num
  rw [h]
  norm_num

/-- In grade/rgb mode with unit contrast factor, `mapColor` snaps each
clamped channel to a multiple of 8 (no range hypothesis: the contrast
curve clamps first). -/
theorem mapColor_grade_rgb_clamp (p : DitherParams) (cF : ℚ) (pal : Palette) (r g b : ℚ)
    (hmode : p.renderMode = RenderMode.grade) (hcs : p.colorSpace = ColorSpace.rgb)
    (hcF : cF = 1) :
    mapColor r g b p cF pal = ⟨snapTo 8 (clamp r), snapTo 8 (clamp g), snapTo 8 (clamp b)⟩ := by
  subst hcF
  unfold mapColor
  rw [hmode]
  simp only [and_true, if_true, one_ne_zero, ne_eq, not_false_eq_true, reduceIte]
  rw [factor_one, factor_one, factor_one, hcs]
  rfl

theorem snap8_clamp_int (v : ℚ) :
    ∃ m : ℤ, snapTo 8 (clamp v) = 8 * (m : ℚ) ∧ 0 ≤ m ∧ m ≤ 32 := by
  refine ⟨jsRound (clamp v / 8), by rw [snapTo]; ring,
    (jsRound_div8_bounds (clamp v) (clamp_nonneg v) (clamp_le v)).1,
    (jsRound_div8_bounds (clamp v) (clamp_nonneg v) (clamp_le v)).2⟩

/-- Snapping to a multiple of 8, byte-storing and re-snapping the stored
value gives the original snap: the byte-stored quantizer output is a fixed
point of quantize-then-store. -/
theorem snap8_store_fix (v : ℚ) :
    snapTo 8 (clamp (storeByte (snapTo 8 (clamp v)))) = snapTo 8 (clamp v) := by
  obtain ⟨m, hsnap, hm0, hm32⟩ := snap8_clamp_int v
  rw [hsnap]
  have hcast : (8 : ℚ) * (m : ℚ) = ((8 * m : ℤ) : ℚ) := by push_cast; ring
  rw [hcast, storeByte_intCast]
  by_cases hm : m = 32
  · subst hm
    norm_num
    rw [clamp_of_mem _ (by norm_num) (by norm_num), snapTo_eight_255]
  · have hif : (if (8 * m : ℤ) ≤ 0 then (0 : ℤ) else if 255 ≤ 8 * m then 255 else 8 * m)
        = 8 * m := by
      by_cases h0 : m = 0
      · subst h0; norm_num
      · rw [if_neg (by omega), if_neg (by omega)]
    rw [hif]
    have hq0 : (0 : ℚ) ≤ ((8 * m : ℤ) : ℚ) := by exact_mod_cast (by omega : (0 : ℤ) ≤ 8 * m)
    have hq1 : ((8 * m : ℤ) : ℚ) ≤ 255 := by exact_mod_cast (by omega : (8 * m : ℤ) ≤ 255)
    rw [clamp_of_mem _ hq0 hq1, snapTo]
    have he : ((8 * m : ℤ) : ℚ) / 8 = ((m : ℤ) : ℚ) := by push_cast; ring
    rw [he, jsRound_intCast]
    push_cast
    ring

/-- One grade/rgb pixel pass is idempotent, alpha and knockout included. -/
theorem simplePixel_idem (p : DitherParams) (pal : Palette)
    (hmode : p.renderMode = RenderMode.grade) (hcs : p.colorSpace = ColorSpace.rgb) (px : Px) :
    simplePixel p 1 pal (simplePixel p 1 pal px) = simplePixel p 1 pal px := by
  have hmap : ∀ u v t : ℚ, mapColor u v t p 1 pal
      = ⟨snapTo 8 (clamp u), snapTo 8 (clamp v), snapTo 8 (clamp t)⟩ :=
    fun u v t => mapColor_grade_rgb_clamp p 1 pal u v t hmode hcs rfl
  unfold simplePixel
  simp only [hmap, snap8_store_fix]
  by_cases hsh : p.knockout ∧
      isShadow ⟨snapTo 8 (clamp px.r), snapTo 8 (clamp px.g), snapTo 8 (clamp px.b)⟩ pal
  · simp [hsh]
  · simp [hsh]

theorem processSimple_idem (p : DitherParams) (pal : Palette)
    (hmode : p.renderMode = RenderMode.grade) (hcs : p.colorSpace = ColorSpace.rgb)
    (data : List Px) :
    processSimple p 1 pal (processSimple p 1 pal data) = processSimple p 1 pal data := by
  unfold processSimple
  rw [List.map_map]
  apply List.map_congr_left
  intro px _
  exact simplePixel_idem p pal hmode hcs px

theorem range_map_getD (l : List Px) (n : ℕ) (h : l.length = n) :
    (List.range n).map (fun j => l.getD j default) = l := by
  apply List.ext_getElem
  · simp [h]
  · intro i h1 h2
    simp only [List.getElem_map, List.getElem_range]
    exact List.getD_eq_getElem l default h2

/-- Resampling a well-formed raster to its own size is the identity. -/
theorem resampleNearest_self (r : Raster) (hw : 0 < r.width) (hh : 0 < r.height)
    (hlen : r.data.length = r.width * r.height) :
    resampleNearest r r.width r.height = r := by
  obtain ⟨w, h, data⟩ := r
  simp only at hw hh hlen
  unfold resampleNearest
  simp only
  congr 1
  have hfun : (fun j : ℕ => data.getD (j / w * h / h * w + j % w * w / w) default)
      = fun j : ℕ => data.getD j default := by
    funext j
    rw [Nat.mul_div_cancel (j / w) hh, Nat.mul_div_cancel (j % w) hw, Nat.div_add_mod' j w]
  rw [hfun, range_map_getD data (w * h) hlen]

/-- With the effect enabled, algorithm `none`, default contrast and full
resolution, the dither process reduces to `processSimple` on a well-formed
raster. -/
theorem ditherProcess_grade_rgb (sq cq : ℚ → ℚ) (p : DitherParams) (pal : Palette) (r : Raster)
    (hen : p.enabled = true) (halg : p.algorithm = Algo.none)
    (hc : p.contrast = 0) (hres : p.resolution = 1)
    (hw : 0 < r.width) (hh : 0 < r.height) (hlen : r.data.length = r.width * r.height) :
    ditherProcess sq cq p pal r = ⟨r.width, r.height, processSimple p 1 pal r.data⟩ := by
  simp only [ditherProcess]
  rw [if_pos hen]
  have hwcalc : max 1 (⌊(r.width : ℚ) * p.resolution⌋.toNat) = r.width := by
    rw [hres, mul_one, Int.floor_natCast, Int.toNat_natCast]
    omega
  have hhcalc : max 1 (⌊(r.height : ℚ) * p.resolution⌋.toNat) = r.height := by
    rw [hres, mul_one, Int.floor_natCast, Int.toNat_natCast]
    omega
  rw [hwcalc, hhcalc, resampleNearest_self r hw hh hlen, hc, contrastFactor_zero]
  simp only [applyEffectLoop, halg]
  exact resampleNearest_self ⟨r.width, r.height, processSimple p 1 pal r.data⟩ hw hh
    (by simp [processSimple, hlen])

/-- Claim C6: applying the dither effect in grade mode with full-range RGB
quantization and no spatial algorithm twice gives the same raster as
applying it once — re-quantizing an already-quantized (and byte-stored)
channel value is a fixed point, and knockout marks the same pixels both
times. -/
theorem claim_C6_grade_rgb_idempotent (sq cq : ℚ → ℚ) (p : DitherParams) (pal : Palette)
    (r : Raster) (hen : p.enabled = true) (hmode : p.renderMode = RenderMode.grade)
    (hcs : p.colorSpace = ColorSpace.rgb) (halg : p.algorithm = Algo.none)
    (hc : p.contrast = 0) (hres : p.resolution = 1)
    (hw : 0 < r.width) (hh : 0 < r.height) (hlen : r.data.length = r.width * r.height) :
    ditherProcess sq cq p pal (ditherProcess sq cq p pal r) = ditherProcess sq cq p pal r := by
  have h1 := ditherProcess_grade_rgb sq cq p pal r hen halg hc hres hw hh hlen
  have hlen2 : (processSimple p 1 pal r.data).length = r.width * r.height := by
    simp [processSimple, hlen]
  have h2 := ditherProcess_grade_rgb sq cq p pal
    ⟨r.width, r.height, processSimple p 1 pal r.data⟩ hen halg hc hres hw hh hlen2
  rw [h1, h2]
  rw [processSimple_idem p pal hmode hcs r.data]

/-- Witness for C6 at a concrete one-pixel raster: a second application of
the grade/rgb pass changes nothing. -/
theorem claim_C6_witness :
    ditherProcess (fun _ => 0) (fun _ => 0) pGradeRgb palGray
        (ditherProcess (fun _ => 0) (fun _ => 0) pGradeRgb palGray ⟨1, 1, [⟨3, 130, 255, 7⟩]⟩)
      = ditherProcess (fun _ => 0) (fun _ => 0) pGradeRgb palGray ⟨1, 1, [⟨3, 130, 255, 7⟩]⟩ :=
  claim_C6_grade_rgb_idempotent (fun _ => 0) (fun _ => 0) pGradeRgb palGray
    ⟨1, 1, [⟨3, 130, 255, 7⟩]⟩ rfl rfl rfl rfl rfl rfl (by norm_num) (by norm_num) (by norm_num)

end FileManipulator
